import Mathlib

/-!
Verification development for the PTG temporal buffering / windowing engine.

The definitions below are a shallow embedding of the Python sources:

* `uho_activity_detector.py` — the `InputBuffer` / `InputWindow` data
  structures and their operations (`queue_image`, `queue_hand_pose`,
  `queue_object_detections`, `get_window`, `get_window_detections`,
  `clear_before`) and the node callback `obj_det_callback`.
* `activity_classifier_tcn.py` — the window-validation criteria
  (`_window_criterion_correct_size`, `_window_criterion_new_leading_frame`),
  one iteration of the runtime scheduling loop `rt_loop`, the memoization
  bookkeeping performed by `_process_window`, and the replay backpressure
  synchronization between `_thread_populate_from_coco` and `rt_loop`.

Timestamps are modelled directly as integer nanosecond keys (the codebase
converts ROS `Time` messages to a total-ordered nanosecond integer via
`time_to_int` before any comparison; we work with the integer key).
Message payloads irrelevant to timing logic are abstracted as `Nat` tags so
that distinct queued messages remain distinguishable.
-/

namespace PTG

/-- Integer nanosecond timestamp key (the result of the codebase's
`time_to_int` conversion; a total order used as the sole join key). -/
abbrev TimeNS := Int

/-- A buffered image frame: `(timestamp, opaque image payload)`.  Mirrors the
`Tuple[Time, npt.NDArray]` entries of `InputBuffer.frames`. -/
abbrev Frame := TimeNS × Nat

/-- A hand-pose message (`HandJointPosesUpdate`): the declared hand label,
the header stamp used for time association, and an opaque payload tag. -/
structure HandMsg where
  hand : String
  stamp : TimeNS
  payload : Nat
deriving DecidableEq

/-- An object-detection set message (`ObjectDetection2dSet`): the source-image
stamp used for exact association, the number of detections, and an opaque
payload tag. -/
structure DetMsg where
  source_stamp : TimeNS
  num_detections : Int
  payload : Nat
deriving DecidableEq

/-- Modelled from the spec: the matching utility
`angel_system.utils.matching.descending_match_with_tolerance` is imported by
`uho_activity_detector.py` but its definition is not among the provided
sources.  Per the spec's ToleranceJoin contract, each reference timestamp is
matched to the closest item whose timestamp-difference magnitude is within
the tolerance (inclusive), ties broken by smallest absolute difference and
then by the most recent item (items are buffered in ascending time order, so
later list positions are more recent); if no item qualifies the slot is
`none`.  `bestMatch` selects that item for one reference timestamp. -/
def bestMatch (t tol : TimeNS) (timeOf : α → TimeNS) : List α → Option α
  | [] => none
  | x :: xs =>
    match bestMatch t tol timeOf xs with
    | none => if |timeOf x - t| ≤ tol then some x else none
    | some y =>
      if |timeOf x - t| ≤ tol ∧ |timeOf x - t| < |timeOf y - t| then some x
      else some y

/-- Modelled from the spec: one matched-or-absent item per reference
timestamp (see `bestMatch`). -/
def descending_match_with_tolerance (refs : List TimeNS) (items : List α)
    (tol : TimeNS) (timeOf : α → TimeNS) : List (Option α) :=
  refs.map (fun t => bestMatch t tol timeOf items)

/-- The last `n` elements of a list, in original order.  This is the
embedding of the deque-tail slicing idiom used by `InputBuffer.get_window`:
`list(itertools.islice(reversed(self.frames), window_size))[::-1]`. -/
def lastN (n : Nat) (l : List α) : List α := (l.reverse.take n).reverse

/-- `InputWindow` from `uho_activity_detector.py`: a window of aligned data.
`frames` holds the window's frames; the other lists are aligned 1:1 with the
frames with `none` in unmatched slots. -/
structure InputWindow where
  frames : List Frame
  hand_pose_left : List (Option HandMsg)
  hand_pose_right : List (Option HandMsg)
  obj_dets : List (Option DetMsg)
deriving DecidableEq

/-- `InputBuffer` from `uho_activity_detector.py`: one ascending-time deque
per stream, plus the configured hand-message association tolerance.  The
Python `RLock` makes each public operation atomic; in this sequential
embedding every operation is a pure state transformer, which models that
atomicity directly. -/
structure InputBuffer where
  hand_msg_tolerance_nsec : TimeNS
  frames : List Frame
  hand_pose_left : List HandMsg
  hand_pose_right : List HandMsg
  obj_dets : List DetMsg
deriving DecidableEq

/-- A freshly constructed buffer (all deques empty). -/
def InputBuffer.empty (tol : TimeNS) : InputBuffer := ⟨tol, [], [], [], []⟩

/-- `InputBuffer.queue_image`: append a frame to the frame deque. -/
def InputBuffer.queue_image (buf : InputBuffer) (f : Frame) : InputBuffer :=
  { buf with frames := buf.frames ++ [f] }

/-- `InputBuffer.queue_hand_pose`: dispatch on the message's hand label,
appending to the right- or left-hand deque; any other label raises
`ValueError` before any deque is touched. -/
def InputBuffer.queue_hand_pose (buf : InputBuffer) (msg : HandMsg) :
    Except String InputBuffer :=
  if msg.hand = "Right" then
    Except.ok { buf with hand_pose_right := buf.hand_pose_right ++ [msg] }
  else if msg.hand = "Left" then
    Except.ok { buf with hand_pose_left := buf.hand_pose_left ++ [msg] }
  else
    Except.error "Input hand pose for unrecognized hand"

/-- `InputBuffer.queue_object_detections`: append to the detection deque. -/
def InputBuffer.queue_object_detections (buf : InputBuffer) (msg : DetMsg) :
    InputBuffer :=
  { buf with obj_dets := buf.obj_dets ++ [msg] }

/-- `InputBuffer.get_window`: take the last `window_size` frames (fewer if the
buffer holds fewer) in ascending time order, then tolerance-associate the
left-hand, right-hand and object-detection streams against the window frame
times (tolerance zero for detections, which must match exactly). -/
def InputBuffer.get_window (buf : InputBuffer) (window_size : Nat) :
    InputWindow :=
  let window_frames := lastN window_size buf.frames
  let window_frame_times_ns := window_frames.map (fun wf => wf.1)
  { frames := window_frames
    hand_pose_left :=
      descending_match_with_tolerance window_frame_times_ns
        buf.hand_pose_left buf.hand_msg_tolerance_nsec (fun m => m.stamp)
    hand_pose_right :=
      descending_match_with_tolerance window_frame_times_ns
        buf.hand_pose_right buf.hand_msg_tolerance_nsec (fun m => m.stamp)
    obj_dets :=
      descending_match_with_tolerance window_frame_times_ns
        buf.obj_dets 0 (fun m => m.source_stamp) }

/-- `InputBuffer.get_window_detections`: exact-match the detection deque
against the times of the last `window_size` frames. -/
def InputBuffer.get_window_detections (buf : InputBuffer)
    (window_size : Nat) : List (Option DetMsg) :=
  descending_match_with_tolerance
    ((lastN window_size buf.frames).map (fun wf => wf.1))
    buf.obj_dets 0 (fun m => m.source_stamp)

/-- `InputBuffer.clear_before`: for each deque, pop items from the left (the
earliest end) while the head's timestamp is strictly less than the given
bound.  This is a `popleft` loop, i.e. `dropWhile`, on each deque
independently. -/
def InputBuffer.clear_before (buf : InputBuffer) (time_nsec : TimeNS) :
    InputBuffer :=
  { buf with
    frames := buf.frames.dropWhile (fun f => decide (f.1 < time_nsec))
    hand_pose_left :=
      buf.hand_pose_left.dropWhile (fun m => decide (m.stamp < time_nsec))
    hand_pose_right :=
      buf.hand_pose_right.dropWhile (fun m => decide (m.stamp < time_nsec))
    obj_dets :=
      buf.obj_dets.dropWhile (fun m => decide (m.source_stamp < time_nsec)) }

/-- The buffer's latest (most recent) frame timestamp; `none` models the
`RuntimeError` raised when no frames are buffered. -/
def InputBuffer.latest_time (buf : InputBuffer) : Option TimeNS :=
  buf.frames.getLast?.map (fun f => f.1)

/-- `UHOActivityDetector.obj_det_callback`: a detection message with fewer
detections than the configured `top_k` is skipped (logged and dropped)
before anything is queued; otherwise the message is queued and the debug
windowing block runs (extracting window detections and, once at least five
window slots are filled, clearing the buffer up to just past the window's
first frame). -/
def obj_det_callback (topk : Int) (frames_per_det : Nat)
    (buf : InputBuffer) (msg : DetMsg) : InputBuffer :=
  if msg.num_detections < topk then buf
  else
    let buf2 := buf.queue_object_detections msg
    let window_dets := buf2.get_window_detections frames_per_det
    if 5 ≤ (window_dets.filterMap id).length then
      let win := buf2.get_window frames_per_det
      match win.frames.head? with
      | some f => buf2.clear_before (f.1 + 1)
      | none => buf2
    else buf2

/-- `ActivityClassifierTCN._window_criterion_correct_size`: the window length
must equal the configured window size exactly. -/
def window_criterion_correct_size (window_size : Nat) (w : InputWindow) :
    Bool :=
  w.frames.length == window_size

/-- `ActivityClassifierTCN._window_criterion_new_leading_frame`: an empty
window has no leading frame and fails; otherwise the first window (no
previously processed time recorded) passes, and any later window passes
exactly when its trailing (most recent) frame timestamp is strictly greater
than the recorded time of the last processed window. -/
def window_criterion_new_leading_frame (prev_processed : Option TimeNS)
    (w : InputWindow) : Bool :=
  match w.frames.getLast? with
  | none => false
  | some f =>
    match prev_processed with
    | none => true
    | some prev => decide (prev < f.1)

/-- The scheduler-visible state of `ActivityClassifierTCN.rt_loop`: the input
buffer, the last-processed window trailing time
(`_window_processed_time_ns`), and the last-extracted window trailing time
(`_window_extracted_time_ns`). -/
structure SchedState where
  buf : InputBuffer
  processed : Option TimeNS
  extracted : Option TimeNS
deriving DecidableEq

/-- One awakened iteration of `ActivityClassifierTCN.rt_loop` in live mode
(criteria list: correct size, then new leading frame): extract a window and
record its trailing time; if all criteria pass, clear the buffer before the
window's second-oldest frame (`window.frames[1][0]`) and record the window as
processed; otherwise clear the buffer before `latest_time − max_size_nsec`
when any frame is buffered (the `RuntimeError` on an empty buffer is caught
and ignored). -/
def rt_iteration (window_size : Nat) (buffer_max_size_nsec : TimeNS)
    (st : SchedState) : SchedState :=
  let window := st.buf.get_window window_size
  let window_time_ns : Option TimeNS :=
    window.frames.getLast?.map (fun f => f.1)
  if window_criterion_correct_size window_size window &&
      window_criterion_new_leading_frame st.processed window then
    match window.frames.get? 1 with
    | some f =>
      ⟨st.buf.clear_before f.1, window_time_ns, window_time_ns⟩
    | none => ⟨st.buf, window_time_ns, window_time_ns⟩
  else
    match st.buf.latest_time with
    | some lt =>
      ⟨st.buf.clear_before (lt - buffer_max_size_nsec), st.processed,
        window_time_ns⟩
    | none => ⟨st.buf, st.processed, window_time_ns⟩

/-- A pose message as consumed by the TCN node (`HandJointPosesUpdate` used
as a patient-pose carrier): the source stamp keying the memo caches, and an
opaque payload tag. -/
structure PoseMsg where
  source_stamp : TimeNS
  payload : Nat
deriving DecidableEq

/-- The per-frame preprocessed detection structure (`ObjectDetectionsLTRB`)
built in `_process_window`, abstracted to its memo key and the payload of the
message it was derived from. -/
structure DetArt where
  key : TimeNS
  src : Nat
deriving DecidableEq

/-- The per-frame preprocessed pose structure (the `PatientPose` list) built
in `_process_window`, abstracted likewise. -/
structure PoseArt where
  key : TimeNS
  src : Nat
deriving DecidableEq

/-- Derivation of the preprocessed detection structure for one message (the
`ObjectDetectionsLTRB(msg_id, ...)` construction). -/
def detCompute (d : DetMsg) : DetArt := ⟨d.source_stamp, d.payload⟩

/-- Derivation of the preprocessed pose structure for one message (the
`PatientPose` list construction). -/
def poseCompute (p : PoseMsg) : PoseArt := ⟨p.source_stamp, p.payload⟩

/-- First-match association-list lookup, modelling Python `dict` access for
the memo maps (keys are inserted only when absent, so they stay unique). -/
def alookup (k : TimeNS) : List (TimeNS × β) → Option β
  | [] => none
  | (k2, v) :: rest => if k = k2 then some v else alookup k rest

/-- `heapq.heappush` on the memo-expiry min-heaps, modelled as keeping the
key list sorted ascending (a faithful view of a binary min-heap for the only
operations used: push, peek-min, pop-min). -/
def heapPush (h : List TimeNS) (k : TimeNS) : List TimeNS :=
  List.orderedInsert (fun a b => a ≤ b) k h

/-- Deletion of a batch of popped keys from a memo map (`del memo[key]` for
each popped heap key). -/
def heapDelete (memo : List (TimeNS × β)) (keys : List TimeNS) :
    List (TimeNS × β) :=
  keys.foldl (fun m k => m.filter (fun kv => kv.1 != k)) memo

/-- The memoization state carried across `_process_window` calls: the
preprocessed-detection memo and its expiry heap, the preprocessed-pose memo
and its expiry heap, the feature-embedding memo (`_memo_objects_to_feats`)
and its expiry heap, and the queued-pose memo. -/
structure ProcState where
  memo_preproc_input : List (TimeNS × DetArt)
  memo_preproc_input_poses : List (TimeNS × PoseArt)
  memo_objects_to_feats : List (TimeNS × Nat)
  memo_preproc_input_id_heap : List TimeNS
  memo_preproc_input_id_heap_poses : List TimeNS
  memo_objects_to_feats_id_heap : List TimeNS
  queued_pose_memo : List (TimeNS × Nat)
deriving DecidableEq

/-- The all-empty initial memo state built in the node constructor. -/
def ProcState.empty : ProcState := ⟨[], [], [], [], [], [], []⟩

/-- Result of the detection-preprocessing loop of `_process_window`: updated
memo and heap, the keys for which the preprocessing computation actually ran
(in loop order), and the per-frame `frame_object_detections` slots. -/
structure DetLoopResult where
  memo : List (TimeNS × DetArt)
  heap : List TimeNS
  log : List TimeNS
  slots : List (Option DetArt)
deriving DecidableEq

/-- Result of the pose-preprocessing loop of `_process_window`. -/
structure PoseLoopResult where
  memo : List (TimeNS × PoseArt)
  heap : List TimeNS
  log : List TimeNS
  slots : List (Option PoseArt)
deriving DecidableEq

/-- The detection loop of `_process_window`: for each window slot holding a
detection message, reuse the memoized preprocessed structure when the
message's source-stamp key is already in the memo; otherwise compute it, log
the computation, store it, and push the key on the expiry heap. -/
def processDets (memo : List (TimeNS × DetArt)) (heap : List TimeNS) :
    List (Option DetMsg) → DetLoopResult
  | [] => ⟨memo, heap, [], []⟩
  | none :: rest =>
    let r := processDets memo heap rest
    ⟨r.memo, r.heap, r.log, none :: r.slots⟩
  | some d :: rest =>
    match alookup d.source_stamp memo with
    | some v =>
      let r := processDets memo heap rest
      ⟨r.memo, r.heap, r.log, some v :: r.slots⟩
    | none =>
      let v := detCompute d
      let r :=
        processDets (memo ++ [(d.source_stamp, v)])
          (heapPush heap d.source_stamp) rest
      ⟨r.memo, r.heap, d.source_stamp :: r.log, some v :: r.slots⟩

/-- The pose loop of `_process_window`, identical in structure to the
detection loop. -/
def processPoses (memo : List (TimeNS × PoseArt)) (heap : List TimeNS) :
    List (Option PoseMsg) → PoseLoopResult
  | [] => ⟨memo, heap, [], []⟩
  | none :: rest =>
    let r := processPoses memo heap rest
    ⟨r.memo, r.heap, r.log, none :: r.slots⟩
  | some p :: rest =>
    match alookup p.source_stamp memo with
    | some v =>
      let r := processPoses memo heap rest
      ⟨r.memo, r.heap, r.log, some v :: r.slots⟩
    | none =>
      let v := poseCompute p
      let r :=
        processPoses (memo ++ [(p.source_stamp, v)])
          (heapPush heap p.source_stamp) rest
      ⟨r.memo, r.heap, p.source_stamp :: r.log, some v :: r.slots⟩

/-- Modelled from the spec: `objects_to_feats` (from
`angel_system.activity_classification.tcn_hpl.predict`) is not among the
provided sources.  Per the spec's MemoCache contract it derives a
per-timestamp feature embedding for each window frame carrying a detection;
at the call site in `_process_window` the `feature_memo` argument is
commented out, so no cache is consulted or filled and the embedding for
every such timestamp is derived on every call.  This function returns the
timestamp keys whose embedding derivation runs for one call. -/
def objectsToFeatsComputeLog (wdets : List (Option DetMsg)) : List TimeNS :=
  (wdets.filterMap id).map (fun d => d.source_stamp)

/-- Result of one `_process_window` call: the post-call memo state, the
per-frame preprocessed slots, and the computation logs of the three derived
artifacts (detection preprocessing, pose preprocessing, feature
embeddings). -/
structure ProcResult where
  state : ProcState
  det_slots : List (Option DetArt)
  pose_slots : List (Option PoseArt)
  det_compute_log : List TimeNS
  pose_compute_log : List TimeNS
  feat_compute_log : List TimeNS
deriving DecidableEq

/-- The memoization behaviour of `ActivityClassifierTCN._process_window` on
one window (frame times `wframes`, aligned detection slots `wdets`, aligned
pose slots `wposes`): run the detection and pose preprocessing loops against
their memo caches, derive feature embeddings (no cache — see
`objectsToFeatsComputeLog`), then expire memo entries whose key is at or
before the window's first frame time by popping the detection-preprocessing
heap and the feature-embedding heap (the pose-preprocessing heap is not
popped in the source).  An empty `wframes` would raise `IndexError` in the
source before eviction; we return the pre-eviction state there. -/
def process_window (st : ProcState) (wframes : List TimeNS)
    (wdets : List (Option DetMsg)) (wposes : List (Option PoseMsg)) :
    ProcResult :=
  let rd := processDets st.memo_preproc_input st.memo_preproc_input_id_heap
    wdets
  let rp := processPoses st.memo_preproc_input_poses
    st.memo_preproc_input_id_heap_poses wposes
  let flog := objectsToFeatsComputeLog wdets
  match wframes.head? with
  | none =>
    ⟨⟨rd.memo, rp.memo, st.memo_objects_to_feats, rd.heap, rp.heap,
        st.memo_objects_to_feats_id_heap, st.queued_pose_memo⟩,
      rd.slots, rp.slots, rd.log, rp.log, flog⟩
  | some window_start_time_ns =>
    let expired_d :=
      rd.heap.takeWhile (fun k => decide (k ≤ window_start_time_ns))
    let expired_f :=
      st.memo_objects_to_feats_id_heap.takeWhile
        (fun k => decide (k ≤ window_start_time_ns))
    ⟨⟨heapDelete rd.memo expired_d, rp.memo,
        heapDelete st.memo_objects_to_feats expired_f,
        rd.heap.dropWhile (fun k => decide (k ≤ window_start_time_ns)),
        rp.heap,
        st.memo_objects_to_feats_id_heap.dropWhile
          (fun k => decide (k ≤ window_start_time_ns)),
        heapDelete st.queued_pose_memo expired_f⟩,
      rd.slots, rp.slots, rd.log, rp.log, flog⟩

/-- The shared state of the replay (COCO-file input) producer thread
`_thread_populate_from_coco` and the runtime loop: how many aligned tuples
the producer has pushed, whether it is blocked on the extraction condition,
the buffered frame timestamps, and `_window_extracted_time_ns`. -/
structure ReplayState where
  pushed : Nat
  blocked : Bool
  buffer : List TimeNS
  extracted : Option TimeNS
deriving DecidableEq

/-- Interleaved small-step semantics of the replay producer and the runtime
loop, for a replay dataset whose tuple `i` has frame timestamp `ts i`:

* `push` — the producer (not blocked) queues the next tuple's data and then
  enters the `wait_for` on the extraction condition (becomes blocked);
* `extract` — the runtime loop extracts a window from the non-empty buffer
  and records the trailing (last) buffered frame time as
  `_window_extracted_time_ns`, notifying the condition;
* `evict` — the runtime loop clears a prefix of the buffer (both its
  eviction paths keep the newest frame);
* `wake` — the blocked producer's `wait_for` predicate
  (`extracted is not None and extracted >= image_ts_ns`) holds, so the
  producer unblocks and proceeds to its next iteration. -/
inductive ReplayStep (ts : Nat → TimeNS) : ReplayState → ReplayState → Prop
  | push (s : ReplayState) (h : s.blocked = false) :
      ReplayStep ts s
        ⟨s.pushed + 1, true, s.buffer ++ [ts s.pushed], s.extracted⟩
  | extract (s : ReplayState) (h : s.buffer ≠ []) :
      ReplayStep ts s ⟨s.pushed, s.blocked, s.buffer, s.buffer.getLast?⟩
  | evict (s : ReplayState) (pre kept : List TimeNS)
      (hsplit : s.buffer = pre ++ kept) (hk : kept ≠ []) :
      ReplayStep ts s ⟨s.pushed, s.blocked, kept, s.extracted⟩
  | wake (s : ReplayState) (t : TimeNS) (hb : s.blocked = true)
      (he : s.extracted = some t) (hge : ts (s.pushed - 1) ≤ t) :
      ReplayStep ts s ⟨s.pushed, false, s.buffer, s.extracted⟩

/-- States reachable by the replay system from its initial state (nothing
pushed, producer running, empty buffer, no extraction recorded). -/
inductive ReplayReachable (ts : Nat → TimeNS) : ReplayState → Prop
  | init : ReplayReachable ts ⟨0, false, [], none⟩
  | step {s s2 : ReplayState} : ReplayReachable ts s → ReplayStep ts s s2 →
      ReplayReachable ts s2

/-- A sequence of frame-append operations (`queue_image` per arriving image
message) applied to a buffer in arrival order. -/
def queueFrames (buf : InputBuffer) (fs : List Frame) : InputBuffer :=
  fs.foldl InputBuffer.queue_image buf

/-! Helper lemmas about the embedded operations. -/

/-- Taking the last `n` elements is dropping all but the last `n`. -/
theorem lastN_eq_drop (n : Nat) (l : List α) :
    lastN n l = l.drop (l.length - n) := by
  unfold lastN
  rw [List.reverse_take]
  simp

/-- Shorter lists than the request are returned whole. -/
theorem lastN_of_length_le (n : Nat) (l : List α) (h : l.length ≤ n) :
    lastN n l = l := by
  rw [lastN_eq_drop, Nat.sub_eq_zero_of_le h, List.drop_zero]

/-- Anything `bestMatch` selects is a buffered item within tolerance. -/
theorem bestMatch_mem {t tol : TimeNS} {timeOf : α → TimeNS} {l : List α}
    {y : α} (h : bestMatch t tol timeOf l = some y) :
    y ∈ l ∧ |timeOf y - t| ≤ tol := by
  induction l with
  | nil => simp [bestMatch] at h
  | cons x xs ih =>
    rw [bestMatch] at h
    cases hbm : bestMatch t tol timeOf xs with
    | none =>
      rw [hbm] at h
      dsimp only at h
      by_cases hc : |timeOf x - t| ≤ tol
      · rw [if_pos hc] at h
        obtain rfl : x = y := Option.some_inj.mp h
        exact ⟨List.mem_cons_self _ _, hc⟩
      · rw [if_neg hc] at h
        exact absurd h (by simp)
    | some z =>
      rw [hbm] at h
      dsimp only at h
      by_cases hc : |timeOf x - t| ≤ tol ∧ |timeOf x - t| < |timeOf z - t|
      · rw [if_pos hc] at h
        obtain rfl : x = y := Option.some_inj.mp h
        exact ⟨List.mem_cons_self _ _, hc.1⟩
      · rw [if_neg hc] at h
        obtain rfl : z = y := Option.some_inj.mp h
        have hz := ih hbm
        exact ⟨List.mem_cons_of_mem _ hz.1, hz.2⟩

/-- If some buffered item is within tolerance, `bestMatch` selects one. -/
theorem bestMatch_isSome {t tol : TimeNS} {timeOf : α → TimeNS} {l : List α}
    {x : α} (hm : x ∈ l) (hx : |timeOf x - t| ≤ tol) :
    (bestMatch t tol timeOf l).isSome := by
  induction l with
  | nil => cases hm
  | cons a xs ih =>
    rw [bestMatch]
    cases hbm : bestMatch t tol timeOf xs with
    | some z =>
      dsimp only
      split <;> simp
    | none =>
      dsimp only
      rcases List.mem_cons.mp hm with rfl | hmem
      · rw [if_pos hx]
        simp
      · have h2 := ih hmem
        rw [hbm] at h2
        simp at h2

/-- The match list is aligned 1:1 with the reference timestamps. -/
theorem dmwt_length (refs : List TimeNS) (items : List α) (tol : TimeNS)
    (timeOf : α → TimeNS) :
    (descending_match_with_tolerance refs items tol timeOf).length =
      refs.length := by
  simp [descending_match_with_tolerance]

/-- Slot `i` of the match list is the best match for reference `i`. -/
theorem dmwt_getD (refs : List TimeNS) (items : List α) (tol : TimeNS)
    (timeOf : α → TimeNS) (i : Nat) (hi : i < refs.length) :
    (descending_match_with_tolerance refs items tol timeOf).getD i none =
      bestMatch (refs.get ⟨i, hi⟩) tol timeOf items := by
  unfold descending_match_with_tolerance
  rw [List.getD_eq_getElem?_getD, List.getElem?_map,
    List.getElem?_eq_getElem hi]
  rfl

/-- Appending frames appends to the frame deque and touches nothing else. -/
theorem queueFrames_state (buf : InputBuffer) (fs : List Frame) :
    queueFrames buf fs =
      { buf with frames := buf.frames ++ fs } := by
  induction fs generalizing buf with
  | nil => simp [queueFrames]
  | cons f fs ih =>
    show queueFrames (buf.queue_image f) fs = _
    rw [ih]
    simp [InputBuffer.queue_image]

/-- The frames of an extracted window are the last `n` buffered frames. -/
theorem get_window_frames (buf : InputBuffer) (n : Nat) :
    (buf.get_window n).frames = lastN n buf.frames := rfl

/-- C1 (confirmed): for every extracted non-empty window (trailing frame
`f`), the progress criterion accepts exactly when either no window has been
processed yet (`prev = none`), or the window's trailing frame timestamp is
strictly greater than the recorded trailing timestamp of the last processed
window; equal or lesser trailing timestamps are rejected, and with no prior
processed window the check always passes. -/
theorem C1_progress_criterion (prev : Option TimeNS) (w : InputWindow)
    (f : Frame) (h : w.frames.getLast? = some f) :
    window_criterion_new_leading_frame prev w = true ↔
      (prev = none ∨ ∃ p, prev = some p ∧ p < f.1) := by
  unfold window_criterion_new_leading_frame
  rw [h]
  cases prev <;> simp

/-- Witness for C1 at the spec's Scenario D: a window trailing at `t = 24`
after a processed window trailing at `t = 24` (the criterion rejects it,
since neither disjunct holds). -/
theorem C1_progress_criterion_witness :
    ((⟨[((10:Int), 0), (24, 1)], [], [], []⟩ : InputWindow).frames.getLast? =
      some ((24:Int), 1)) ∧
    (window_criterion_new_leading_frame (some 24)
        (⟨[((10:Int), 0), (24, 1)], [], [], []⟩ : InputWindow) = true ↔
      ((some (24:Int) : Option TimeNS) = none ∨
        ∃ p, (some (24:Int) : Option TimeNS) = some p ∧
          p < (((24:Int), (1:Nat))).1)) :=
  ⟨by decide, C1_progress_criterion (some 24) _ _ (by decide)⟩

/-- C2 (confirmed): for every sequence of frame appends with strictly
increasing timestamps, `get_window size` returns exactly the last `size`
appended frames in append order when `size` is at most the buffered count,
and all buffered frames when fewer are buffered. -/
theorem C2_window_extraction (tol : TimeNS) (fs : List Frame) (n : Nat)
    (hinc : List.Pairwise (fun a b => a.1 < b.1) fs) :
    (n ≤ fs.length →
      ((queueFrames (InputBuffer.empty tol) fs).get_window n).frames =
        fs.drop (fs.length - n)) ∧
    (fs.length < n →
      ((queueFrames (InputBuffer.empty tol) fs).get_window n).frames = fs) := by
  have hb : (queueFrames (InputBuffer.empty tol) fs).frames = fs := by
    rw [queueFrames_state]
    rfl
  constructor
  · intro _
    rw [get_window_frames, hb, lastN_eq_drop]
  · intro hlt
    rw [get_window_frames, hb, lastN_of_length_le _ _ (le_of_lt hlt)]

/-- Witness for C2: three frames appended at timestamps 1, 2, 3; a window of
size 2 is the last two frames in append order, and a window of size 5 is all
three. -/
theorem C2_window_extraction_witness :
    List.Pairwise (fun a b : Frame => a.1 < b.1)
      [((1:Int), 0), (2, 1), (3, 2)] ∧
    ((2 ≤ ([((1:Int), 0), (2, 1), (3, 2)] : List Frame).length →
      ((queueFrames (InputBuffer.empty 0)
          [((1:Int), 0), (2, 1), (3, 2)]).get_window 2).frames =
        ([((1:Int), 0), (2, 1), (3, 2)] : List Frame).drop
          (([((1:Int), 0), (2, 1), (3, 2)] : List Frame).length - 2)) ∧
    (([((1:Int), 0), (2, 1), (3, 2)] : List Frame).length < 2 →
      ((queueFrames (InputBuffer.empty 0)
          [((1:Int), 0), (2, 1), (3, 2)]).get_window 2).frames =
        [((1:Int), 0), (2, 1), (3, 2)])) :=
  ⟨by decide, C2_window_extraction 0 [((1:Int), 0), (2, 1), (3, 2)] 2
    (by decide)⟩

/-- C9 (confirmed): `queue_hand_pose` errors exactly when the message's hand
label is neither "Right" nor "Left"; on success only the matching hand deque
gains the message at its tail, every other deque being unchanged (and on
error no new buffer state is produced at all — the source raises before
touching any deque). -/
theorem C9_hand_label_validation (buf : InputBuffer) (msg : HandMsg) :
    ((∃ e, buf.queue_hand_pose msg = Except.error e) ↔
      (msg.hand ≠ "Right" ∧ msg.hand ≠ "Left")) ∧
    (∀ buf2, buf.queue_hand_pose msg = Except.ok buf2 →
      buf2.frames = buf.frames ∧ buf2.obj_dets = buf.obj_dets ∧
      (msg.hand = "Right" → buf2.hand_pose_left = buf.hand_pose_left ∧
        buf2.hand_pose_right = buf.hand_pose_right ++ [msg]) ∧
      (msg.hand = "Left" → buf2.hand_pose_right = buf.hand_pose_right ∧
        buf2.hand_pose_left = buf.hand_pose_left ++ [msg])) := by
  unfold InputBuffer.queue_hand_pose
  by_cases h1 : msg.hand = "Right"
  · rw [if_pos h1]
    constructor
    · constructor
      · rintro ⟨e, he⟩
        cases he
      · rintro ⟨hr, _⟩
        exact absurd h1 hr
    · rintro buf2 hok
      cases hok
      exact ⟨rfl, rfl, fun _ => ⟨rfl, rfl⟩,
        fun h2 => absurd (h1.symm.trans h2) (by decide)⟩
  · rw [if_neg h1]
    by_cases h2 : msg.hand = "Left"
    · rw [if_pos h2]
      constructor
      · constructor
        · rintro ⟨e, he⟩
          cases he
        · rintro ⟨_, hl⟩
          exact absurd h2 hl
      · rintro buf2 hok
        cases hok
        exact ⟨rfl, rfl, fun hR => absurd hR h1, fun _ => ⟨rfl, rfl⟩⟩
    · rw [if_neg h2]
      exact ⟨⟨fun _ => ⟨h1, h2⟩, fun _ => ⟨_, rfl⟩⟩, fun buf2 hok => by cases hok⟩

/-- Witness for C9: an unrecognized hand label ("Rigth") makes
`queue_hand_pose` error. -/
theorem C9_hand_label_validation_witness :
    ∃ e, ((InputBuffer.empty 0).queue_hand_pose
      ⟨"Rigth", 0, 0⟩ : Except String InputBuffer) = Except.error e :=
  (C9_hand_label_validation (InputBuffer.empty 0) ⟨"Rigth", 0, 0⟩).1.mpr
    (by decide)

/-- C10 (confirmed): an `ObjectDetection2dSet` message with strictly fewer
detections than the configured `top_k` is dropped by `obj_det_callback`
before any queueing (the buffer is returned unchanged, and the early-return
path raises nothing), so such a message — never having been queued — can
never occupy any window's detection slot. -/
theorem C10_min_detections_filter (topk : Int) (frames_per_det : Nat)
    (buf : InputBuffer) (msg : DetMsg)
    (hlt : msg.num_detections < topk) (hnotin : msg ∉ buf.obj_dets) :
    obj_det_callback topk frames_per_det buf msg = buf ∧
    ∀ ws i, (buf.get_window ws).obj_dets.getD i none ≠ some msg := by
  constructor
  · unfold obj_det_callback
    rw [if_pos hlt]
  · intro ws i hslot
    have hobj : (buf.get_window ws).obj_dets =
        descending_match_with_tolerance
          ((lastN ws buf.frames).map (fun wf => wf.1))
          buf.obj_dets 0 (fun m => m.source_stamp) := rfl
    rw [hobj] at hslot
    by_cases hi : i < ((lastN ws buf.frames).map (fun wf => wf.1)).length
    · rw [dmwt_getD _ _ _ _ i hi] at hslot
      exact hnotin (bestMatch_mem hslot).1
    · rw [List.getD_eq_default] at hslot
      · cases hslot
      · rw [dmwt_length]
        omega

/-- Witness for C10: a message with 3 detections against `top_k = 5` leaves
a one-frame buffer unchanged and appears in no window slot. -/
theorem C10_min_detections_filter_witness :
    obj_det_callback 5 32
        (⟨0, [((7:Int), 0)], [], [], []⟩ : InputBuffer) ⟨7, 3, 0⟩ =
      (⟨0, [((7:Int), 0)], [], [], []⟩ : InputBuffer) ∧
    ∀ ws i, ((⟨0, [((7:Int), 0)], [], [], []⟩ :
        InputBuffer).get_window ws).obj_dets.getD i none ≠
      some (⟨7, 3, 0⟩ : DetMsg) :=
  C10_min_detections_filter 5 32 _ _ (by decide) (by decide)

/-- C3 (confirmed): a window frame's detection slot holds a queued detection
message exactly when that message's source timestamp equals the frame's
timestamp (zero tolerance); whatever the slot holds is a queued message with
exactly the frame's timestamp, so a queued detection matching no window
frame timestamp never appears in any slot. -/
theorem C3_detection_exact_match (buf : InputBuffer) (n i : Nat)
    (hi : i < (buf.get_window n).frames.length) :
    (∀ d, (buf.get_window n).obj_dets.getD i none = some d →
      d ∈ buf.obj_dets ∧
        d.source_stamp = ((buf.get_window n).frames.get ⟨i, hi⟩).1) ∧
    (((buf.get_window n).obj_dets.getD i none).isSome ↔
      ∃ d ∈ buf.obj_dets,
        d.source_stamp = ((buf.get_window n).frames.get ⟨i, hi⟩).1) := by
  have hi2 : i < ((lastN n buf.frames).map (fun wf => wf.1)).length := by
    rw [List.length_map]
    exact hi
  have hslot : (buf.get_window n).obj_dets.getD i none =
      bestMatch (((lastN n buf.frames).map (fun wf => wf.1)).get ⟨i, hi2⟩) 0
        (fun m => m.source_stamp) buf.obj_dets :=
    dmwt_getD _ _ _ _ i hi2
  have href : ((lastN n buf.frames).map (fun wf => wf.1)).get ⟨i, hi2⟩ =
      ((buf.get_window n).frames.get ⟨i, hi⟩).1 := by
    simp [List.get_map]
    rfl
  rw [hslot, href]
  refine ⟨?_, ?_, ?_⟩
  · intro d hd
    have h := bestMatch_mem hd
    refine ⟨h.1, ?_⟩
    have h0 := le_antisymm h.2 (abs_nonneg _)
    have h1 := abs_eq_zero.mp h0
    linarith
  · intro hs
    obtain ⟨d, hd⟩ := Option.isSome_iff_exists.mp hs
    have h := bestMatch_mem hd
    refine ⟨d, h.1, ?_⟩
    have h0 := le_antisymm h.2 (abs_nonneg _)
    have h1 := abs_eq_zero.mp h0
    linarith
  · rintro ⟨d, hdmem, hdts⟩
    exact bestMatch_isSome hdmem (by rw [hdts]; simp)

/-- Witness for C3, at the spec's Scenario C: frames at 10 and 11, one
detection with source timestamp 10; slot 0 (frame 10) gets the detection,
and the existence side holds for frame index 0. -/
theorem C3_detection_exact_match_witness :
    (0 < ((⟨0, [((10:Int), 0), (11, 1)], [], [],
        [⟨10, 5, 0⟩]⟩ : InputBuffer).get_window 2).frames.length) ∧
    ((((⟨0, [((10:Int), 0), (11, 1)], [], [],
        [⟨10, 5, 0⟩]⟩ : InputBuffer).get_window 2).obj_dets.getD 0
          none).isSome ↔
      ∃ d ∈ (⟨0, [((10:Int), 0), (11, 1)], [], [],
          [⟨10, 5, 0⟩]⟩ : InputBuffer).obj_dets,
        d.source_stamp = (((⟨0, [((10:Int), 0), (11, 1)], [], [],
          [⟨10, 5, 0⟩]⟩ : InputBuffer).get_window 2).frames.get
            ⟨0, by decide⟩).1) :=
  ⟨by decide, (C3_detection_exact_match
    (⟨0, [((10:Int), 0), (11, 1)], [], [], [⟨10, 5, 0⟩]⟩ : InputBuffer)
    2 0 (by decide)).2⟩

/-- C6 (confirmed): for the configured tolerance τ and the frame at window
index `i`, a buffered pose/hand item within τ (inclusive) of the frame time
makes the frame's slot non-empty, and whatever fills the slot is within τ of
the frame time — an item at distance τ + 1 or more can never be the slot's
content.  Stated for both the left- and right-hand streams. -/
theorem C6_pose_tolerance (buf : InputBuffer) (n i : Nat)
    (hi : i < (buf.get_window n).frames.length) :
    ((∃ p ∈ buf.hand_pose_left,
        |p.stamp - ((buf.get_window n).frames.get ⟨i, hi⟩).1| ≤
          buf.hand_msg_tolerance_nsec) →
      ((buf.get_window n).hand_pose_left.getD i none).isSome) ∧
    (∀ p, (buf.get_window n).hand_pose_left.getD i none = some p →
      |p.stamp - ((buf.get_window n).frames.get ⟨i, hi⟩).1| ≤
          buf.hand_msg_tolerance_nsec ∧
      ¬(buf.hand_msg_tolerance_nsec + 1 ≤
          |p.stamp - ((buf.get_window n).frames.get ⟨i, hi⟩).1|)) ∧
    ((∃ p ∈ buf.hand_pose_right,
        |p.stamp - ((buf.get_window n).frames.get ⟨i, hi⟩).1| ≤
          buf.hand_msg_tolerance_nsec) →
      ((buf.get_window n).hand_pose_right.getD i none).isSome) ∧
    (∀ p, (buf.get_window n).hand_pose_right.getD i none = some p →
      |p.stamp - ((buf.get_window n).frames.get ⟨i, hi⟩).1| ≤
          buf.hand_msg_tolerance_nsec ∧
      ¬(buf.hand_msg_tolerance_nsec + 1 ≤
          |p.stamp - ((buf.get_window n).frames.get ⟨i, hi⟩).1|)) := by
  have hi2 : i < ((lastN n buf.frames).map (fun wf => wf.1)).length := by
    rw [List.length_map]
    exact hi
  have hslotL : (buf.get_window n).hand_pose_left.getD i none =
      bestMatch (((lastN n buf.frames).map (fun wf => wf.1)).get ⟨i, hi2⟩)
        buf.hand_msg_tolerance_nsec (fun m => m.stamp) buf.hand_pose_left :=
    dmwt_getD _ _ _ _ i hi2
  have hslotR : (buf.get_window n).hand_pose_right.getD i none =
      bestMatch (((lastN n buf.frames).map (fun wf => wf.1)).get ⟨i, hi2⟩)
        buf.hand_msg_tolerance_nsec (fun m => m.stamp) buf.hand_pose_right :=
    dmwt_getD _ _ _ _ i hi2
  have href : ((lastN n buf.frames).map (fun wf => wf.1)).get ⟨i, hi2⟩ =
      ((buf.get_window n).frames.get ⟨i, hi⟩).1 := by
    simp [List.get_map]
    rfl
  rw [hslotL, hslotR, href]
  refine ⟨?_, ?_, ?_, ?_⟩
  · rintro ⟨p, hp, hptol⟩
    exact bestMatch_isSome hp hptol
  · intro p hp
    have h := bestMatch_mem hp
    refine ⟨h.2, fun hc => ?_⟩
    have h2 := h.2
    linarith
  · rintro ⟨p, hp, hptol⟩
    exact bestMatch_isSome hp hptol
  · intro p hp
    have h := bestMatch_mem hp
    refine ⟨h.2, fun hc => ?_⟩
    have h2 := h.2
    linarith

/-- Witness for C6: tolerance τ = 2, a frame at 10, a left-hand item at 12
(distance exactly τ): the frame's left slot is filled. -/
theorem C6_pose_tolerance_witness :
    (0 < ((⟨2, [((10:Int), 0)], [⟨"Left", 12, 0⟩], [],
        []⟩ : InputBuffer).get_window 1).frames.length) ∧
    ((∃ p ∈ (⟨2, [((10:Int), 0)], [⟨"Left", 12, 0⟩], [],
        []⟩ : InputBuffer).hand_pose_left,
      |p.stamp - (((⟨2, [((10:Int), 0)], [⟨"Left", 12, 0⟩], [],
        []⟩ : InputBuffer).get_window 1).frames.get ⟨0, by decide⟩).1| ≤
        (⟨2, [((10:Int), 0)], [⟨"Left", 12, 0⟩], [],
          []⟩ : InputBuffer).hand_msg_tolerance_nsec) →
      (((⟨2, [((10:Int), 0)], [⟨"Left", 12, 0⟩], [],
        []⟩ : InputBuffer).get_window 1).hand_pose_left.getD 0
          none).isSome) :=
  ⟨by decide, (C6_pose_tolerance
    (⟨2, [((10:Int), 0)], [⟨"Left", 12, 0⟩], [], []⟩ : InputBuffer)
    1 0 (by decide)).1⟩

/-- On a deque whose keys ascend, the `popleft`-while-less loop removes
exactly the items with key below the bound. -/
theorem dropWhile_lt_of_sorted (key : α → TimeNS) (t : TimeNS)
    (l : List α) (hs : List.Pairwise (fun a b => key a ≤ key b) l) :
    l.dropWhile (fun x => decide (key x < t)) =
      l.filter (fun x => decide (t ≤ key x)) := by
  induction l with
  | nil => rfl
  | cons a l ih =>
    rw [List.pairwise_cons] at hs
    by_cases hc : key a < t
    · rw [List.dropWhile_cons_of_pos (by simpa using hc),
        List.filter_cons_of_neg (by simpa using hc)]
      exact ih hs.2
    · push_neg at hc
      rw [List.dropWhile_cons_of_neg (by simpa using hc),
        List.filter_cons_of_pos (by simpa using hc)]
      refine congrArg (a :: ·) (List.filter_eq_self.mpr ?_).symm
      intro b hb
      simp only [decide_eq_true_eq]
      exact le_trans hc (hs.1 b hb)

/-- Filtering keeps the last element when it passes the predicate, and it
stays last. -/
theorem getLast?_filter_of_getLast (p : α → Bool) (l : List α) (a : α)
    (h : l.getLast? = some a) (hp : p a = true) :
    (l.filter p).getLast? = some a := by
  rw [← List.head?_reverse] at h ⊢
  rw [← List.filter_reverse]
  cases hr : l.reverse with
  | nil =>
    rw [hr] at h
    cases h
  | cons x xs =>
    rw [hr] at h
    obtain rfl : x = a := by simpa using h
    rw [List.filter_cons_of_pos hp]
    rfl

/-- C4 counterexample: with the unsorted frame deque `[(5, ·), (3, ·)]`,
`clear_before 4` retains the item with key `3 < 4` (the popleft loop stops
at the head key `5 ≥ 4`), so the claim's removes-every-item-below-`t`
reading fails for unsorted buffer states. -/
theorem C4_counterexample :
    ((3:Int), (1:Nat)) ∈
      ((⟨0, [((5:Int), 0), (3, 1)], [], [], []⟩ :
        InputBuffer).clear_before 4).frames ∧
    ((3:Int) < 4) := by decide

/-- C4 amended (proved): `clear_before t` removes from each stream's deque
its maximal prefix of items with key below `t`; consequently, whenever each
deque is in ascending key order (the buffer's documented invariant), it
removes exactly the items with key strictly below `t` and no item with key
at or above `t`, each stream independently. -/
theorem C4_amended (buf : InputBuffer) (t : TimeNS)
    (hf : List.Pairwise (fun a b : Frame => a.1 ≤ b.1) buf.frames)
    (hl : List.Pairwise (fun a b : HandMsg => a.stamp ≤ b.stamp)
      buf.hand_pose_left)
    (hr : List.Pairwise (fun a b : HandMsg => a.stamp ≤ b.stamp)
      buf.hand_pose_right)
    (ho : List.Pairwise (fun a b : DetMsg => a.source_stamp ≤ b.source_stamp)
      buf.obj_dets) :
    (buf.clear_before t).frames =
      buf.frames.filter (fun f => decide (t ≤ f.1)) ∧
    (buf.clear_before t).hand_pose_left =
      buf.hand_pose_left.filter (fun m => decide (t ≤ m.stamp)) ∧
    (buf.clear_before t).hand_pose_right =
      buf.hand_pose_right.filter (fun m => decide (t ≤ m.stamp)) ∧
    (buf.clear_before t).obj_dets =
      buf.obj_dets.filter (fun m => decide (t ≤ m.source_stamp)) :=
  ⟨dropWhile_lt_of_sorted (fun f : Frame => f.1) t _ hf,
    dropWhile_lt_of_sorted (fun m : HandMsg => m.stamp) t _ hl,
    dropWhile_lt_of_sorted (fun m : HandMsg => m.stamp) t _ hr,
    dropWhile_lt_of_sorted (fun m : DetMsg => m.source_stamp) t _ ho⟩

/-- Witness for the amended C4: a sorted buffer cleared at `t = 3` keeps
exactly the items with key at least 3 in every stream. -/
theorem C4_amended_witness :
    ((⟨0, [((1:Int), 0), (5, 1)], [⟨"Left", 2, 0⟩], [⟨"Right", 3, 0⟩],
        [⟨4, 5, 0⟩]⟩ : InputBuffer).clear_before 3).frames =
      ([((1:Int), 0), (5, 1)] : List Frame).filter
        (fun f => decide ((3:Int) ≤ f.1)) ∧
    ((⟨0, [((1:Int), 0), (5, 1)], [⟨"Left", 2, 0⟩], [⟨"Right", 3, 0⟩],
        [⟨4, 5, 0⟩]⟩ : InputBuffer).clear_before 3).hand_pose_left =
      ([⟨"Left", 2, 0⟩] : List HandMsg).filter
        (fun m => decide ((3:Int) ≤ m.stamp)) ∧
    ((⟨0, [((1:Int), 0), (5, 1)], [⟨"Left", 2, 0⟩], [⟨"Right", 3, 0⟩],
        [⟨4, 5, 0⟩]⟩ : InputBuffer).clear_before 3).hand_pose_right =
      ([⟨"Right", 3, 0⟩] : List HandMsg).filter
        (fun m => decide ((3:Int) ≤ m.stamp)) ∧
    ((⟨0, [((1:Int), 0), (5, 1)], [⟨"Left", 2, 0⟩], [⟨"Right", 3, 0⟩],
        [⟨4, 5, 0⟩]⟩ : InputBuffer).clear_before 3).obj_dets =
      ([⟨4, 5, 0⟩] : List DetMsg).filter
        (fun m => decide ((3:Int) ≤ m.source_stamp)) :=
  C4_amended _ 3 (by decide) (by decide) (by decide) (by decide)

/-- C5 counterexample: window size 3, maximum retention 5; frames at 0, 1
and 100; the first window passes all criteria, so the iteration clears only
before the window's second frame (time 1) and retains a frame (time 1) far
older than `latest − max_duration = 95` — the retention bound fails after
this processed-window iteration. -/
theorem C5_counterexample :
    ((rt_iteration 3 5
        ⟨⟨0, [((0:Int), 0), (1, 1), (100, 2)], [], [], []⟩, none,
          none⟩).buf.frames.head? = some ((1:Int), (1:Nat))) ∧
    ((rt_iteration 3 5
        ⟨⟨0, [((0:Int), 0), (1, 1), (100, 2)], [], [], []⟩, none,
          none⟩).buf.latest_time = some 100) ∧
    ¬((100:Int) - 5 ≤ 1) := by decide

/-- C5 amended (proved): after a scheduler iteration whose extracted window
is rejected by the validation criteria, with the frame deque in ascending
order and a nonnegative retention bound, the buffer's latest frame time is
unchanged and every retained frame is within the maximum retention duration
of it.  (After an iteration that processes its window, eviction instead goes
only to the window's second-oldest frame — see `C5_counterexample`.) -/
theorem C5_amended (window_size : Nat) (maxns : TimeNS) (st : SchedState)
    (hmax : 0 ≤ maxns)
    (hsort : List.Pairwise (fun a b : Frame => a.1 ≤ b.1) st.buf.frames)
    (hrej : (window_criterion_correct_size window_size
          (st.buf.get_window window_size) &&
        window_criterion_new_leading_frame st.processed
          (st.buf.get_window window_size)) = false) :
    (rt_iteration window_size maxns st).buf.latest_time =
      st.buf.latest_time ∧
    ∀ lt2, st.buf.latest_time = some lt2 →
      ∀ f ∈ (rt_iteration window_size maxns st).buf.frames,
        lt2 - maxns ≤ f.1 := by
  simp only [rt_iteration]
  rw [hrej]
  simp only [Bool.false_eq_true, if_false]
  cases hlt : st.buf.latest_time with
  | none =>
    refine ⟨?_, ?_⟩
    · dsimp only
      exact hlt
    · intro lt2 h2
      cases h2
  | some lt =>
    dsimp only
    have hfilter : (st.buf.clear_before (lt - maxns)).frames =
        st.buf.frames.filter (fun f => decide (lt - maxns ≤ f.1)) :=
      dropWhile_lt_of_sorted (fun f : Frame => f.1) _ _ hsort
    obtain ⟨fr, hfr, hfr1⟩ :
        ∃ fr, st.buf.frames.getLast? = some fr ∧ fr.1 = lt := by
      unfold InputBuffer.latest_time at hlt
      cases h2 : st.buf.frames.getLast? with
      | none =>
        rw [h2] at hlt
        cases hlt
      | some fr =>
        rw [h2] at hlt
        exact ⟨fr, rfl, by simpa using hlt⟩
    refine ⟨?_, ?_⟩
    · show (st.buf.clear_before (lt - maxns)).latest_time = some lt
      unfold InputBuffer.latest_time
      rw [hfilter,
        getLast?_filter_of_getLast _ _ _ hfr
          (by rw [decide_eq_true_eq, hfr1]; linarith)]
      simp [hfr1]
    · intro lt2 h2
      obtain rfl : lt = lt2 := Option.some_inj.mp h2
      intro f hf
      rw [hfilter] at hf
      have hmem := List.mem_filter.mp hf
      have := of_decide_eq_true hmem.2
      linarith

/-- Witness for the amended C5: window size 3 against only two buffered
frames (size criterion fails), retention 5; the latest frame time 10 is
kept and all retained frames are at least `10 − 5 = 5`. -/
theorem C5_amended_witness :
    ((rt_iteration 3 5
        ⟨⟨0, [((0:Int), 0), (10, 1)], [], [], []⟩, none,
          none⟩).buf.latest_time =
      (⟨0, [((0:Int), 0), (10, 1)], [], [], []⟩ :
        InputBuffer).latest_time) ∧
    (∀ lt2, (⟨0, [((0:Int), 0), (10, 1)], [], [], []⟩ :
        InputBuffer).latest_time = some lt2 →
      ∀ f ∈ (rt_iteration 3 5
          ⟨⟨0, [((0:Int), 0), (10, 1)], [], [], []⟩, none,
            none⟩).buf.frames,
        lt2 - 5 ≤ f.1) :=
  C5_amended 3 5
    ⟨⟨0, [((0:Int), 0), (10, 1)], [], [], []⟩, none, none⟩
    (by decide) (by decide) (by decide)

/-- A key found in the front of an association list is still found after
appending entries behind it. -/
theorem alookup_append_left {β} (k : TimeNS) (m1 m2 : List (TimeNS × β))
    (v : β) (h : alookup k m1 = some v) :
    alookup k (m1 ++ m2) = some v := by
  induction m1 with
  | nil => simp [alookup] at h
  | cons kv m1 ih =>
    obtain ⟨k2, v2⟩ := kv
    rw [List.cons_append, alookup]
    rw [alookup] at h
    by_cases hk : k = k2
    · rwa [if_pos hk] at h ⊢
    · rw [if_neg hk] at h ⊢
      exact ih h

/-- The detection-preprocessing loop never recomputes a key that is already
memoized. -/
theorem processDets_not_logged (k : TimeNS) (v : DetArt)
    (wdets : List (Option DetMsg)) :
    ∀ (memo : List (TimeNS × DetArt)) (heap : List TimeNS),
      alookup k memo = some v →
      k ∉ (processDets memo heap wdets).log := by
  induction wdets with
  | nil =>
    intro memo heap hmem
    simp [processDets]
  | cons o rest ih =>
    intro memo heap hmem
    cases o with
    | none =>
      rw [processDets]
      exact ih memo heap hmem
    | some d =>
      rw [processDets]
      cases hl : alookup d.source_stamp memo with
      | some v2 =>
        dsimp only
        exact ih memo heap hmem
      | none =>
        dsimp only
        have hne : k ≠ d.source_stamp := by
          intro he
          rw [he] at hmem
          rw [hmem] at hl
          cases hl
        intro hcon
        rcases List.mem_cons.mp hcon with he | htl
        · exact hne he
        · exact ih _ _ (alookup_append_left k memo _ v hmem) htl

/-- A window slot whose detection message carries an already-memoized key is
filled with the stored artifact (the memo value is reused, not
recomputed). -/
theorem processDets_slot_reuse (k : TimeNS) (v : DetArt)
    (wdets : List (Option DetMsg)) :
    ∀ (memo : List (TimeNS × DetArt)) (heap : List TimeNS),
      alookup k memo = some v →
      ∀ i d, wdets.get? i = some (some d) → d.source_stamp = k →
        (processDets memo heap wdets).slots.get? i = some (some v) := by
  induction wdets with
  | nil =>
    intro memo heap hmem i d hget
    simp at hget
  | cons o rest ih =>
    intro memo heap hmem i d hget hk
    cases i with
    | zero =>
      obtain rfl : o = some d := by simpa using hget
      rw [processDets]
      have hfound : alookup d.source_stamp memo = some v := by
        rw [hk]
        exact hmem
      rw [hfound]
      rfl
    | succ i =>
      have hget2 : rest.get? i = some (some d) := by simpa using hget
      cases o with
      | none =>
        rw [processDets]
        simpa using ih memo heap hmem i d hget2 hk
      | some d2 =>
        rw [processDets]
        cases hl : alookup d2.source_stamp memo with
        | some v2 =>
          dsimp only
          simpa using ih memo heap hmem i d hget2 hk
        | none =>
          dsimp only
          simpa using ih _ _ (alookup_append_left k memo _ v hmem) i d
            hget2 hk

/-- The pose-preprocessing loop never recomputes a key that is already
memoized. -/
theorem processPoses_not_logged (k : TimeNS) (v : PoseArt)
    (wposes : List (Option PoseMsg)) :
    ∀ (memo : List (TimeNS × PoseArt)) (heap : List TimeNS),
      alookup k memo = some v →
      k ∉ (processPoses memo heap wposes).log := by
  induction wposes with
  | nil =>
    intro memo heap hmem
    simp [processPoses]
  | cons o rest ih =>
    intro memo heap hmem
    cases o with
    | none =>
      rw [processPoses]
      exact ih memo heap hmem
    | some p =>
      rw [processPoses]
      cases hl : alookup p.source_stamp memo with
      | some v2 =>
        dsimp only
        exact ih memo heap hmem
      | none =>
        dsimp only
        have hne : k ≠ p.source_stamp := by
          intro he
          rw [he] at hmem
          rw [hmem] at hl
          cases hl
        intro hcon
        rcases List.mem_cons.mp hcon with he | htl
        · exact hne he
        · exact ih _ _ (alookup_append_left k memo _ v hmem) htl

/-- The detection computation log of a `_process_window` call is that of its
detection loop (eviction happens afterwards and does not touch logs). -/
theorem process_window_det_log (st : ProcState) (wframes : List TimeNS)
    (wdets : List (Option DetMsg)) (wposes : List (Option PoseMsg)) :
    (process_window st wframes wdets wposes).det_compute_log =
      (processDets st.memo_preproc_input st.memo_preproc_input_id_heap
        wdets).log := by
  cases wframes <;> rfl

/-- The pose computation log of a `_process_window` call is that of its pose
loop. -/
theorem process_window_pose_log (st : ProcState) (wframes : List TimeNS)
    (wdets : List (Option DetMsg)) (wposes : List (Option PoseMsg)) :
    (process_window st wframes wdets wposes).pose_compute_log =
      (processPoses st.memo_preproc_input_poses
        st.memo_preproc_input_id_heap_poses wposes).log := by
  cases wframes <;> rfl

/-- The detection slots of a `_process_window` call are those of its
detection loop. -/
theorem process_window_det_slots (st : ProcState) (wframes : List TimeNS)
    (wdets : List (Option DetMsg)) (wposes : List (Option PoseMsg)) :
    (process_window st wframes wdets wposes).det_slots =
      (processDets st.memo_preproc_input st.memo_preproc_input_id_heap
        wdets).slots := by
  cases wframes <;> rfl

/-- The feature-embedding derivation runs for every detection-bearing window
slot on every call, with no cache consulted. -/
theorem process_window_feat_log (st : ProcState) (wframes : List TimeNS)
    (wdets : List (Option DetMsg)) (wposes : List (Option PoseMsg)) :
    (process_window st wframes wdets wposes).feat_compute_log =
      (wdets.filterMap id).map (fun d => d.source_stamp) := by
  cases wframes <;> rfl

/-- C7 counterexample: two consecutively processed windows (frames 10–11
then 11–12, each frame with a detection) share timestamp 11, yet the
feature-embedding derivation for key 11 runs in both calls — twice per
cache lifetime — and the feature-embedding memo stays empty throughout (the
memo argument at the call site is commented out in the source), so the
stored-value-reuse half of the claim fails as well. -/
theorem C7_counterexample :
    ((process_window ProcState.empty [10, 11]
        [some ⟨10, 5, 0⟩, some ⟨11, 5, 1⟩] []).feat_compute_log ++
      (process_window
        (process_window ProcState.empty [10, 11]
          [some ⟨10, 5, 0⟩, some ⟨11, 5, 1⟩] []).state
        [11, 12] [some ⟨11, 5, 1⟩, some ⟨12, 5, 2⟩]
        []).feat_compute_log).count 11 = 2 ∧
    (process_window ProcState.empty [10, 11]
        [some ⟨10, 5, 0⟩, some ⟨11, 5, 1⟩]
        []).state.memo_objects_to_feats = [] ∧
    (process_window
        (process_window ProcState.empty [10, 11]
          [some ⟨10, 5, 0⟩, some ⟨11, 5, 1⟩] []).state
        [11, 12] [some ⟨11, 5, 1⟩, some ⟨12, 5, 2⟩]
        []).state.memo_objects_to_feats = [] := by decide

/-- C7 amended (proved): the two preprocessing caches (per-frame detection
structures and per-frame pose structures) memoize as claimed — a key already
stored is never recomputed during window processing, and slots carrying that
key reuse the stored artifact — but the feature-embedding cache is not
consulted by window processing (its memo argument is disabled at the call
site), so feature embeddings are derived anew for every detection-bearing
slot of every processed window. -/
theorem C7_amended (st : ProcState) (wframes : List TimeNS)
    (wdets : List (Option DetMsg)) (wposes : List (Option PoseMsg))
    (k kp : TimeNS) (v : DetArt) (vp : PoseArt)
    (hmem : alookup k st.memo_preproc_input = some v)
    (hmemp : alookup kp st.memo_preproc_input_poses = some vp) :
    k ∉ (process_window st wframes wdets wposes).det_compute_log ∧
    kp ∉ (process_window st wframes wdets wposes).pose_compute_log ∧
    (∀ i d, wdets.get? i = some (some d) → d.source_stamp = k →
      (process_window st wframes wdets wposes).det_slots.get? i =
        some (some v)) ∧
    (process_window st wframes wdets wposes).feat_compute_log =
      (wdets.filterMap id).map (fun d => d.source_stamp) := by
  rw [process_window_det_log, process_window_pose_log,
    process_window_det_slots, process_window_feat_log]
  exact ⟨processDets_not_logged k v wdets _ _ hmem,
    processPoses_not_logged kp vp wposes _ _ hmemp,
    fun i d h1 h2 => processDets_slot_reuse k v wdets _ _ hmem i d h1 h2,
    rfl⟩

/-- Witness for the amended C7: a memo state already holding detection key 5
and pose key 6; processing a window whose only detection carries key 5
recomputes neither cache entry, reuses the stored detection artifact in slot
0, and still derives the feature embedding for key 5. -/
theorem C7_amended_witness :
    ((5:Int) ∉ (process_window
        ⟨[(5, ⟨5, 7⟩)], [(6, ⟨6, 8⟩)], [], [5], [6], [], []⟩
        [9, 10] [some ⟨5, 5, 7⟩] []).det_compute_log) ∧
    ((6:Int) ∉ (process_window
        ⟨[(5, ⟨5, 7⟩)], [(6, ⟨6, 8⟩)], [], [5], [6], [], []⟩
        [9, 10] [some ⟨5, 5, 7⟩] []).pose_compute_log) ∧
    (∀ i d, ([some ⟨5, 5, 7⟩] : List (Option DetMsg)).get? i =
        some (some d) → d.source_stamp = 5 →
      (process_window
        ⟨[(5, ⟨5, 7⟩)], [(6, ⟨6, 8⟩)], [], [5], [6], [], []⟩
        [9, 10] [some ⟨5, 5, 7⟩] []).det_slots.get? i =
          some (some (⟨5, 7⟩ : DetArt))) ∧
    ((process_window
        ⟨[(5, ⟨5, 7⟩)], [(6, ⟨6, 8⟩)], [], [5], [6], [], []⟩
        [9, 10] [some ⟨5, 5, 7⟩] []).feat_compute_log =
      (([some ⟨5, 5, 7⟩] : List (Option DetMsg)).filterMap id).map
        (fun d => d.source_stamp)) :=
  C7_amended ⟨[(5, ⟨5, 7⟩)], [(6, ⟨6, 8⟩)], [], [5], [6], [], []⟩
    [9, 10] [some ⟨5, 5, 7⟩] [] 5 6 ⟨5, 7⟩ ⟨6, 8⟩ (by decide) (by decide)

/-- Invariant of the replay system: once the producer has pushed at least
one tuple, the newest buffered frame is the last pushed tuple's timestamp;
and whenever the producer is not blocked after pushing, the recorded
last-extracted time is at least the last pushed tuple's timestamp. -/
theorem replay_invariant (ts : Nat → TimeNS) (s : ReplayState)
    (hr : ReplayReachable ts s) :
    (1 ≤ s.pushed → s.buffer.getLast? = some (ts (s.pushed - 1))) ∧
    (s.blocked = false → 1 ≤ s.pushed →
      ∃ t2, s.extracted = some t2 ∧ ts (s.pushed - 1) ≤ t2) := by
  induction hr with
  | init =>
    refine ⟨?_, ?_⟩
    · intro h
      cases h
    · intro _ h
      cases h
  | step hr hstep ih =>
    cases hstep with
    | push hb =>
      refine ⟨?_, ?_⟩
      · intro _
        simp
      · intro hbf
        cases hbf
    | extract hne =>
      refine ⟨fun hp => ih.1 hp, fun hb hp => ?_⟩
      exact ⟨_, ih.1 hp, le_refl _⟩
    | evict pre kept hsplit hk =>
      refine ⟨?_, ih.2⟩
      intro hp
      have h1 := ih.1 hp
      rw [hsplit, List.getLast?_append_of_ne_nil _ hk] at h1
      exact h1
    | wake t2 hb he hge =>
      exact ⟨ih.1, fun _ hp => ⟨t2, he, hge⟩⟩

/-- C8 (confirmed): in replay mode, any step in which the producer pushes
its next tuple can only happen from a reachable state where the previously
pushed tuple's frame timestamp `ts (pushed − 1)` is already covered by the
recorded last-extracted window trailing time — i.e. the producer does not
proceed past its `wait_for` until the scheduler has extracted a window whose
trailing timestamp is at least the tuple just pushed. -/
theorem C8_replay_backpressure (ts : Nat → TimeNS) (s s2 : ReplayState)
    (hr : ReplayReachable ts s) (hstep : ReplayStep ts s s2)
    (hpush : s2.pushed = s.pushed + 1) (hprev : 1 ≤ s.pushed) :
    ∃ t2, s.extracted = some t2 ∧ ts (s.pushed - 1) ≤ t2 := by
  have hb : s.blocked = false := by
    cases hstep with
    | push h => exact h
    | extract h =>
      exfalso
      simp at hpush
    | evict pre kept hsplit hk =>
      exfalso
      simp at hpush
    | wake t2 hb2 he hge =>
      exfalso
      simp at hpush
  exact (replay_invariant ts s hr).2 hb hprev

/-- Witness for C8: with every tuple timestamp 0, after push–extract–wake
the producer is at one pushed tuple and unblocked; the next push step
certifies that the extracted time covers tuple 0. -/
theorem C8_replay_backpressure_witness :
    ∃ t2, (ReplayState.mk 1 false [(0:Int)] (some 0)).extracted = some t2 ∧
      (fun _ : Nat => (0:Int)) (1 - 1) ≤ t2 := by
  have h0 : ReplayReachable (fun _ : Nat => (0:Int)) ⟨0, false, [], none⟩ :=
    ReplayReachable.init
  have h1 : ReplayReachable (fun _ : Nat => (0:Int))
      ⟨1, true, [(0:Int)], none⟩ := by
    have := ReplayReachable.step h0
      (ReplayStep.push ⟨0, false, [], none⟩ rfl)
    simpa using this
  have h2 : ReplayReachable (fun _ : Nat => (0:Int))
      ⟨1, true, [(0:Int)], some 0⟩ := by
    have := ReplayReachable.step h1
      (ReplayStep.extract ⟨1, true, [(0:Int)], none⟩ (by simp))
    simpa using this
  have h3 : ReplayReachable (fun _ : Nat => (0:Int))
      ⟨1, false, [(0:Int)], some 0⟩ := by
    have := ReplayReachable.step h2
      (ReplayStep.wake ⟨1, true, [(0:Int)], some 0⟩ 0 rfl rfl (le_refl 0))
    simpa using this
  exact C8_replay_backpressure (fun _ : Nat => (0:Int))
    ⟨1, false, [(0:Int)], some 0⟩
    ⟨2, true, [(0:Int), (0:Int)], some 0⟩ h3
    (by
      have := @ReplayStep.push (fun _ : Nat => (0:Int))
        ⟨1, false, [(0:Int)], some 0⟩ rfl
      simpa using this)
    rfl (le_refl 1)

end PTG
